import Mathlib

/-!
Verification of the audio capture and endpoint-detection core of kiri
(src/kiri/audio/{recorder,mic,resampler}.py and src/kiri/config.py),
as a shallow embedding in Lean 4.
-/

namespace Kiri

/-- Silence-detection constant from config.py: `SILENCE_THRESHOLD = 0.008`
(normalized RMS below or equal to this counts as silence). -/
def SILENCE_THRESHOLD (α : Type) [DivisionRing α] : α := 8 / 1000

/-- From config.py: `SILENCE_DURATION = 2.5` seconds of silence to auto-stop. -/
def SILENCE_DURATION (α : Type) [DivisionRing α] : α := 5 / 2

/-- From config.py: `SPEECH_MIN_DURATION = 0.5` — speech must last at least
this long before a quiet block may start the silence timer. -/
def SPEECH_MIN_DURATION (α : Type) [DivisionRing α] : α := 1 / 2

/-- From config.py: `MAX_DURATION = 120` — hard recording cap in seconds. -/
def MAX_DURATION : ℚ := 120

/-- State of the endpoint detector embedded in
`AudioRecorder.record_with_silence` (recorder.py lines 59-64): the three
closure variables `speech_detected`, `silence_start`, `speech_start`, plus
the recorder's `stop_event` flag.  Timestamps are kept abstract over an
ordered field `α` (the Python code uses `time.monotonic()` floats). -/
structure DetState (α : Type) where
  speech_detected : Bool
  silence_start : Option α
  speech_start : Option α
  stop_event : Bool
deriving DecidableEq, Repr

/-- Python truthiness of an optional number: `None` and `0.0` are falsy,
every other value is truthy.  Used to embed line 80 of recorder.py,
`if speech_start and ...`, faithfully. -/
def pyTruthy {α : Type} [Zero α] [DecidableEq α] : Option α → Bool
  | none => false
  | some x => x != 0

/-- One step of the endpoint detector: the body of
`record_with_silence.callback` from `if rms > SILENCE_THRESHOLD:`
onward (recorder.py lines 74-85), given the block's normalized RMS
`rms` and the monotonic timestamp `now`. -/
def detUpdate {α : Type} [LinearOrderedField α] (rms now : α) (s : DetState α) :
    DetState α :=
  if rms > SILENCE_THRESHOLD α then
    -- line 75: silence_start = None; lines 76-78: first loud block marks speech
    let s1 : DetState α := { s with silence_start := none }
    if !s1.speech_detected then
      { s1 with speech_detected := true, speech_start := some now }
    else s1
  else if s.speech_detected then
    -- lines 80-81: `if speech_start and (now - speech_start) < SPEECH_MIN_DURATION: return`
    if pyTruthy s.speech_start &&
        decide (now - s.speech_start.getD 0 < SPEECH_MIN_DURATION α) then s
    -- lines 82-83: first quiet block past the guard starts the silence timer
    else if s.silence_start.isNone then { s with silence_start := some now }
    -- lines 84-85: enough accumulated silence raises the stop flag
    else if now - s.silence_start.getD 0 ≥ SILENCE_DURATION α then
      { s with stop_event := true }
    else s
  else s

/-- Detector state at the start of `record_with_silence`
(recorder.py lines 60-64): stop flag cleared, no speech seen. -/
def detInit (α : Type) : DetState α :=
  { speech_detected := false, silence_start := none, speech_start := none,
    stop_event := false }

/-- Run the endpoint detector over a trace of `(rms, now)` block readings,
in arrival order. -/
def runDet {α : Type} [LinearOrderedField α] (s : DetState α)
    (trace : List (α × α)) : DetState α :=
  trace.foldl (fun st p => detUpdate p.1 p.2 st) s

/-! ## Device selection (mic.py) -/

/-- One entry of the host device enumeration (`sounddevice.query_devices()`):
human-readable name and maximum input channel capacity. -/
structure Device where
  name : List Char
  max_input_channels : ℤ
deriving DecidableEq, Repr

/-- Does the character list start with the given pattern? -/
def startsWith : List Char → List Char → Bool
  | _, [] => true
  | [], _ :: _ => false
  | a :: as, b :: bs => a == b && startsWith as bs

/-- Python substring containment for strings: `pat in hay`. -/
def hasSub : List Char → List Char → Bool
  | [], pat => startsWith [] pat
  | c :: t, pat => startsWith (c :: t) pat || hasSub t pat

/-- The per-device test of mic.py line 16:
`MIC_HW in dev["name"] and dev["max_input_channels"] > 0`. -/
def matchesHw (hw : List Char) (d : Device) : Bool :=
  hasSub d.name hw && decide (d.max_input_channels > 0)

/-- The enumeration loop of mic.py lines 15-17: first index (from `i`)
whose device passes `matchesHw`. -/
def findMatch (hw : List Char) : ℕ → List Device → Option ℕ
  | _, [] => none
  | i, d :: ds => if matchesHw hw d then some i else findMatch hw (i + 1) ds

/-- The whole named-search phase (mic.py lines 14-17): skipped entirely
when no device-name hint is configured. -/
def namedMatch (mic_hw : Option (List Char)) (devices : List Device) : Option ℕ :=
  match mic_hw with
  | none => none
  | some hw => findMatch hw 0 devices

/-- From config.py: `MIC_HW = None` — no device-name hint by default. -/
def MIC_HW : Option (List Char) := none

/-- The diagnostic message raised by `find_mic_device` when no device is
usable (mic.py lines 24-31): every enumerated device with input channels,
rendered as `index: name` and joined with commas. -/
def errMsg (devices : List Device) : List Char :=
  ("No input device found. Available inputs: ").toList ++
    List.intercalate ((", ").toList)
      ((devices.enum.filter (fun p => decide (p.2.max_input_channels > 0))).map
        (fun p => Nat.toDigits 10 p.1 ++ ((": ").toList) ++ p.2.name))

/-- mic.py `find_mic_device`, parameterized by the configured name hint
(`MIC_HW`), the device enumeration, and the default input device index
(`sd.default.device[0]`, possibly absent).  Returns the chosen device
index, or the diagnostic error message (the `RuntimeError`). -/
def find_mic_device (mic_hw : Option (List Char)) (devices : List Device)
    (defaultDev : Option ℤ) : Except (List Char) ℤ :=
  match namedMatch mic_hw devices with
  | some i => Except.ok (i : ℤ)
  | none =>
    -- mic.py lines 20-22: fall back to the system default input device
    match defaultDev with
    | some d => if d ≥ 0 then Except.ok d else Except.error (errMsg devices)
    | none => Except.error (errMsg devices)

/-- Placeholder device, used only to give `List.getD` a default when
stating properties of the enumeration. -/
def dummyDev : Device := { name := [], max_input_channels := 0 }

/-- The negation of the fallback test of mic.py line 21: the default
input index is unusable when absent (`None`) or negative. -/
def invalidDefault : Option ℤ → Bool
  | none => true
  | some d => decide (d < 0)

/-- A concrete enumeration used by the failure witness: one output-only
device and one input-capable device. -/
def demoDevices : List Device :=
  [{ name := ("Speakers").toList, max_input_channels := 0 },
   { name := ("USB Mic").toList, max_input_channels := 1 }]

/-! ## Resampler (resampler.py) -/

/-- Split a list into consecutive chunks of three (a shorter final chunk
when the length is not a multiple of three). -/
def chunk3 {α : Type} : List α → List (List α)
  | [] => []
  | a :: b :: c :: rest => [a, b, c] :: chunk3 rest
  | l => [l]

/-- Arithmetic mean of a list of rationals (0 on the empty list). -/
def listMean (l : List ℚ) : ℚ := l.sum / (l.length : ℚ)

/-- Modelled from the spec: `scipy.signal.resample_poly(audio, 1, 3)` — an
external library function whose code is not part of this repository.  The
spec (section 4.2) fixes only its contract: polyphase rational resampling
48000 to 16000 Hz with an anti-aliasing low-pass filter, output length
within rounding tolerance of `N/3` (scipy documents it as the ceiling),
input and output normalized to [-1.0, 1.0], deterministic, not required to
be sample-exact against any reference.  Modelled here as the simplest
polyphase filter meeting that contract: a 3-tap boxcar (moving-average
anti-aliasing filter followed by 3:1 decimation). -/
def resamplePolyModel (x : List ℚ) : List ℚ := (chunk3 x).map listMean

/-- resampler.py `resample_48k_to_16k`: `return resample_poly(audio, 1, 3)`. -/
def resample_48k_to_16k (audio : List ℚ) : List ℚ := resamplePolyModel audio

/-! ## Finalization and the capture session (recorder.py) -/

/-- One audio block as delivered by the capture callback: a 2-D array of
signed 16-bit samples — rows are frames, columns are channels. -/
abbrev Block := List (List ℤ)

/-- recorder.py lines 104-106: if the concatenated array is 2-D with more
than one channel, keep only channel 0 (`audio[:, 0]`); then `flatten()`. -/
def takeChannel (audio : List (List ℤ)) : List ℤ :=
  if (audio.headD []).length > 1 then audio.map (fun r => r.headD 0)
  else audio.flatten

/-- recorder.py `AudioRecorder._finalize` (lines 98-107): empty waveform
when no blocks were captured; otherwise concatenate the blocks, reduce to
channel 0, normalize int16 samples to [-1, 1] by dividing by 32768, and
resample 48 kHz to 16 kHz. -/
def finalize (frames : List Block) : List ℚ :=
  if frames = [] then []
  else resample_48k_to_16k
    ((takeChannel frames.flatten).map (fun v : ℤ => (v : ℚ) / 32768))

/-- Mean of the squares of all samples of a block
(`np.mean(indata.astype(np.float32) ** 2)`, recorder.py line 69; the
float32 arithmetic is modelled as exact). -/
def meanSq (b : Block) : ℚ :=
  ((((b.flatten).map (fun v => v * v)).sum : ℤ) : ℚ) / (((b.flatten).length : ℕ) : ℚ)

/-- The live signal level computed on every block during endpoint-detected
capture (recorder.py line 69): the RMS of the block's samples normalized
by 32768.  The square root forces this value into `ℝ`. -/
noncomputable def rmsOf (b : Block) : ℝ := Real.sqrt ((meanSq b : ℚ) : ℝ) / 32768

/-- Recorder state during one capture call: `self.frames`,
`self.audio_level`, `self.stop_event` (recorder.py lines 26-29), plus the
closure variables of the endpoint detector (lines 62-64; meaningful only
during endpoint-detected capture). -/
structure SessionState where
  frames : List Block
  audio_level : ℝ
  stop_event : Bool
  speech_detected : Bool
  silence_start : Option ℝ
  speech_start : Option ℝ

/-- The `record_fixed` callback (recorder.py lines 36-39): appends a copy
of the delivered block to the frame buffer and does nothing else (the
status print has no effect on the session). -/
def fixedCallback (indata : Block) (s : SessionState) : SessionState :=
  { s with frames := s.frames ++ [indata] }

/-- The `record_with_silence` callback (recorder.py lines 66-85): appends
a copy of the block, publishes its normalized RMS as the live signal
level, then runs the endpoint-detector step on the same reading. -/
noncomputable def silenceCallback (indata : Block) (now : ℝ) (s : SessionState) :
    SessionState :=
  let s1 := { s with frames := s.frames ++ [indata], audio_level := rmsOf indata }
  let d := detUpdate (rmsOf indata) now
    { speech_detected := s1.speech_detected, silence_start := s1.silence_start,
      speech_start := s1.speech_start, stop_event := s1.stop_event }
  { s1 with
    speech_detected := d.speech_detected, silence_start := d.silence_start,
    speech_start := d.speech_start, stop_event := d.stop_event }

/-- The state reset at the start of `record_fixed` (recorder.py line 33):
only `self.frames.clear()` — the stop flag is left untouched. -/
def recordFixedStart (s : SessionState) : SessionState := { s with frames := [] }

/-- The state reset at the start of `record_with_silence` (recorder.py
lines 59-64): `self.frames.clear()`, `self.stop_event.clear()`, and fresh
detector locals. -/
def recordWithSilenceStart (s : SessionState) : SessionState :=
  { s with
    frames := [], stop_event := false, speech_detected := false,
    silence_start := none, speech_start := none }

/-! ## Theorems -/

/-- A quiet block (`rms` at or below the threshold) received before any
speech has been detected leaves the detector state untouched
(recorder.py: neither branch of lines 74-85 fires). -/
theorem detUpdate_no_speech {α : Type} [LinearOrderedField α] (rms now : α)
    (s : DetState α) (hq : rms ≤ SILENCE_THRESHOLD α)
    (hs : s.speech_detected = false) : detUpdate rms now s = s := by
  unfold detUpdate
  rw [if_neg (by simpa using not_lt.mpr hq)]
  simp [hs]

/-- While no speech is detected, an all-quiet trace leaves the detector in
its initial state. -/
theorem runDet_no_speech {α : Type} [LinearOrderedField α]
    (trace : List (α × α)) (hq : ∀ p ∈ trace, p.1 ≤ SILENCE_THRESHOLD α) :
    runDet (detInit α) trace = detInit α := by
  induction trace with
  | nil => rfl
  | cons p t ih =>
    have h1 : detUpdate p.1 p.2 (detInit α) = detInit α :=
      detUpdate_no_speech p.1 p.2 _ (hq p (by simp)) rfl
    simp only [runDet, List.foldl_cons] at ih ⊢
    rw [h1]
    exact ih (fun q hq2 => hq q (by simp [hq2]))

/-- C3: for every block sequence in which every block's normalized RMS
level is below or equal to SILENCE_THRESHOLD (speech is never detected),
the endpoint detector never raises the stop flag, regardless of how long
the sequence runs. -/
theorem no_speech_never_stops {α : Type} [LinearOrderedField α]
    (trace : List (α × α)) (hq : ∀ p ∈ trace, p.1 ≤ SILENCE_THRESHOLD α) :
    (runDet (detInit α) trace).stop_event = false := by
  rw [runDet_no_speech trace hq]
  rfl

/-- Witness for C3 at a concrete all-quiet trace lasting longer than the
120 s hard ceiling. -/
theorem no_speech_never_stops_witness :
    (∀ p ∈ [((0:ℚ), (0:ℚ)), (8/1000, 130), (0, 300)], p.1 ≤ SILENCE_THRESHOLD ℚ) ∧
    (runDet (detInit ℚ) [((0:ℚ), (0:ℚ)), (8/1000, 130), (0, 300)]).stop_event = false :=
  ⟨by with_unfolding_all decide,
   no_speech_never_stops [((0:ℚ), (0:ℚ)), (8/1000, 130), (0, 300)]
     (by with_unfolding_all decide)⟩

/-- C1 (exhibiting the code bug): with speech first detected at monotonic
time 0, a below-threshold block at time 0.2 — inside the 0.5 s
minimum-speech guard — is NOT ignored: the Python test
`if speech_start and ...` treats the timestamp 0.0 as falsy, skips the
guard, and records `silence_start = 0.2`.  The same relative timing with
speech detected at time 1 is ignored as the claim states. -/
theorem speech_guard_skipped_at_zero_start :
    (runDet (detInit ℚ) [(1, 0), (0, 1/5)]).silence_start = some (1/5) ∧
    (runDet (detInit ℚ) [(1, 1), (0, 6/5)]).silence_start = none := by
  with_unfolding_all decide

/-- C4: finalization applied to a session with zero captured blocks
returns an empty (zero-length) waveform rather than failing. -/
theorem finalize_empty_capture : finalize [] = [] := by
  with_unfolding_all decide

/-- C9 counterexample: the claim says every recording operation starts
with the stop flag cleared, but `record_fixed` clears only the frame
buffer — starting from a session whose stop flag is still set from a
previous endpoint-detected recording, the flag remains set. -/
theorem record_fixed_keeps_stale_stop :
    (recordFixedStart
      { frames := [], audio_level := 0, stop_event := true,
        speech_detected := false, silence_start := none,
        speech_start := none }).stop_event = true := rfl

/-- C9 (amended): endpoint-detected capture begins with the frame buffer
emptied and the stop flag cleared; fixed-duration capture begins with the
frame buffer emptied but leaves the stop flag exactly as it was (that
mode never consults it). -/
theorem recording_start_resets (s : SessionState) :
    (recordFixedStart s).frames = [] ∧
    (recordWithSilenceStart s).frames = [] ∧
    (recordWithSilenceStart s).stop_event = false ∧
    (recordFixedStart s).stop_event = s.stop_event :=
  ⟨rfl, rfl, rfl, rfl⟩

/-- A quiet block past the minimum-speech guard, arriving while the
silence timer is already running, leaves everything unchanged except that
it raises the stop flag exactly when the accumulated silence reaches
SILENCE_DURATION (recorder.py lines 79-85). -/
theorem detUpdate_trailing {α : Type} [LinearOrderedField α] (r t t0 ss : α)
    (b : Bool) (hr : r ≤ SILENCE_THRESHOLD α)
    (hgt : t0 + SPEECH_MIN_DURATION α ≤ ss) (ht : ss ≤ t) :
    detUpdate r t ⟨true, some ss, some t0, b⟩ =
      ⟨true, some ss, some t0, b || decide (t - ss ≥ SILENCE_DURATION α)⟩ := by
  have h1 : ¬ (SILENCE_THRESHOLD α < r) := not_lt.mpr hr
  have h2 : ¬ (t - t0 < SPEECH_MIN_DURATION α) := not_lt.mpr (by linarith)
  simp only [detUpdate, gt_iff_lt]
  rw [if_neg h1]
  simp [pyTruthy, h2]
  split_ifs with hd <;> simp [hd]

/-- Iterating `detUpdate_trailing` over a whole trailing-silence trace:
the stop flag ends up raised exactly when some block arrives
SILENCE_DURATION or more after the silence timer started. -/
theorem runDet_trailing {α : Type} [LinearOrderedField α] (t0 ss : α)
    (trace : List (α × α)) (b : Bool)
    (hgt : t0 + SPEECH_MIN_DURATION α ≤ ss)
    (hq : ∀ p ∈ trace, p.1 ≤ SILENCE_THRESHOLD α)
    (ht : ∀ p ∈ trace, ss ≤ p.2) :
    runDet ⟨true, some ss, some t0, b⟩ trace =
      ⟨true, some ss, some t0,
        b || trace.any (fun p => decide (p.2 - ss ≥ SILENCE_DURATION α))⟩ := by
  induction trace generalizing b with
  | nil => simp [runDet]
  | cons p t ih =>
    simp only [runDet, List.foldl_cons] at ih ⊢
    rw [detUpdate_trailing p.1 p.2 t0 ss b (hq p (by simp)) hgt (ht p (by simp))]
    rw [ih _ (fun q hq2 => hq q (by simp [hq2])) (fun q hq2 => ht q (by simp [hq2]))]
    simp [Bool.or_assoc]

/-- C2: once the silence timer has started at `ss` (a quiet block past
the minimum-speech guard), a subsequent all-quiet trace raises the stop
flag exactly when it contains a block arriving at least SILENCE_DURATION
after `ss` — and never at any earlier block. -/
theorem silence_timer_raises_stop_iff {α : Type} [LinearOrderedField α]
    (t0 ss : α) (trace : List (α × α))
    (hgt : t0 + SPEECH_MIN_DURATION α ≤ ss)
    (hq : ∀ p ∈ trace, p.1 ≤ SILENCE_THRESHOLD α)
    (ht : ∀ p ∈ trace, ss ≤ p.2) :
    (runDet ⟨true, some ss, some t0, false⟩ trace).stop_event = true ↔
      ∃ p ∈ trace, p.2 - ss ≥ SILENCE_DURATION α := by
  rw [runDet_trailing t0 ss trace false hgt hq ht]
  simp [List.any_eq_true]

/-- Witness for C2 with the default constants: speech at t = 0, silence
timer started at t = 0.6, a quiet block at t = 3.1 raises the stop flag
(0.6 + 2.5 = 3.1), while a quiet block at t = 3.0 does not. -/
theorem silence_timer_raises_stop_iff_witness :
    ((0:ℚ) + SPEECH_MIN_DURATION ℚ ≤ 3/5) ∧
    (runDet (⟨true, some (3/5), some 0, false⟩ : DetState ℚ)
      [(0, 31/10)]).stop_event = true ∧
    (runDet (⟨true, some (3/5), some 0, false⟩ : DetState ℚ)
      [(0, 3)]).stop_event = false :=
  ⟨by with_unfolding_all decide,
   (silence_timer_raises_stop_iff 0 (3/5) [(0, 31/10)]
      (by with_unfolding_all decide) (by with_unfolding_all decide)
      (by with_unfolding_all decide)).mpr
     ⟨(0, 31/10), by simp, by with_unfolding_all decide⟩,
   by with_unfolding_all decide⟩

/-- Length of the 3-chunking: the ceiling of a third of the input length. -/
theorem chunk3_length {α : Type} : ∀ (x : List α),
    (chunk3 x).length = (x.length + 2) / 3
  | [] => by simp [chunk3]
  | [a] => by simp [chunk3]
  | [a, b] => by simp [chunk3]
  | a :: b :: c :: rest => by
    have ih := chunk3_length rest
    simp only [chunk3, List.length_cons, ih]
    omega

/-- C5: for every input of N samples, the resampler's output length is
within rounding tolerance of N/3 (it is exactly the ceiling of N/3), for
any N, including N = 0. -/
theorem resample_length_ratio (x : List ℚ) :
    x.length ≤ 3 * (resample_48k_to_16k x).length ∧
    3 * (resample_48k_to_16k x).length ≤ x.length + 2 := by
  have h : (resample_48k_to_16k x).length = (x.length + 2) / 3 := by
    simp [resample_48k_to_16k, resamplePolyModel, chunk3_length]
  rw [h]
  omega

/-- Every chunk produced by the 3-chunking is nonempty and draws all its
elements from the input list. -/
theorem chunk3_mem {α : Type} : ∀ (x : List α) (c : List α), c ∈ chunk3 x →
    c ≠ [] ∧ ∀ a ∈ c, a ∈ x
  | [], c, h => by simp [chunk3] at h
  | [a], c, h => by
    simp [chunk3] at h
    subst h
    simp
  | [a, b], c, h => by
    simp [chunk3] at h
    subst h
    refine ⟨by simp, ?_⟩
    intro y hy
    simpa using hy
  | a :: b :: d :: rest, c, h => by
    simp only [chunk3, List.mem_cons] at h
    rcases h with h | h
    · subst h
      refine ⟨by simp, ?_⟩
      intro y hy
      simp only [List.mem_cons] at hy ⊢
      tauto
    · have hrec := chunk3_mem rest c h
      refine ⟨hrec.1, ?_⟩
      intro y hy
      simp only [List.mem_cons]
      exact Or.inr (Or.inr (Or.inr (hrec.2 y hy)))

/-- The arithmetic mean of a nonempty list of rationals lying in
[-1, 1] lies in [-1, 1]. -/
theorem listMean_bounds (l : List ℚ) (hne : l ≠ [])
    (h : ∀ a ∈ l, -1 ≤ a ∧ a ≤ 1) : -1 ≤ listMean l ∧ listMean l ≤ 1 := by
  have hlen : 0 < (l.length : ℚ) :=
    Nat.cast_pos.mpr (List.length_pos.mpr hne)
  have hsum_le : l.sum ≤ (l.length : ℚ) := by
    have := List.sum_le_card_nsmul l 1 (fun a ha => (h a ha).2)
    simpa using this
  have hsum_ge : -(l.length : ℚ) ≤ l.sum := by
    have := List.card_nsmul_le_sum l (-1) (fun a ha => (h a ha).1)
    simpa using this
  constructor
  · rw [listMean, le_div_iff₀ hlen]
    linarith
  · rw [listMean, div_le_one hlen]
    exact hsum_le

/-- An int16 sample divided by 32768 lies in [-1, 1]. -/
theorem norm_bounds (v : ℤ) (h1 : -32768 ≤ v) (h2 : v ≤ 32767) :
    -1 ≤ (v : ℚ) / 32768 ∧ (v : ℚ) / 32768 ≤ 1 := by
  have hv1 : (-32768 : ℚ) ≤ (v : ℚ) := by exact_mod_cast h1
  have hv2 : (v : ℚ) ≤ 32767 := by exact_mod_cast h2
  constructor
  · rw [le_div_iff₀ (by norm_num : (0:ℚ) < 32768)]
    linarith
  · rw [div_le_one (by norm_num : (0:ℚ) < 32768)]
    linarith

/-- Every sample surviving the channel reduction is either one of the
original samples or the 0 substituted for an empty row. -/
theorem takeChannel_mem (audio : List (List ℤ)) (v : ℤ)
    (hv : v ∈ takeChannel audio) : v = 0 ∨ ∃ r ∈ audio, v ∈ r := by
  unfold takeChannel at hv
  split_ifs at hv
  · rcases List.mem_map.mp hv with ⟨r, hr, hrv⟩
    cases r with
    | nil => exact Or.inl hrv.symm
    | cons a t =>
      refine Or.inr ⟨a :: t, hr, ?_⟩
      rw [← hrv]
      simp [List.headD]
  · rcases List.mem_flatten.mp hv with ⟨r, hr, hrv⟩
    exact Or.inr ⟨r, hr, hrv⟩

/-- C8: for every captured block sequence of signed 16-bit samples, every
sample of the finalized waveform (after normalization by 32768 and
resampling) lies in [-1, 1]. -/
theorem finalize_samples_in_range (frames : List Block) (y : ℚ)
    (hrange : ∀ b ∈ frames, ∀ r ∈ b, ∀ v ∈ r, -32768 ≤ v ∧ v ≤ 32767)
    (hy : y ∈ finalize frames) : -1 ≤ y ∧ y ≤ 1 := by
  unfold finalize at hy
  split_ifs at hy
  · simp at hy
  · simp only [resample_48k_to_16k, resamplePolyModel] at hy
    rcases List.mem_map.mp hy with ⟨c, hc, rfl⟩
    have hcm := chunk3_mem _ c hc
    refine listMean_bounds c hcm.1 ?_
    intro a ha
    have ham := hcm.2 a ha
    rcases List.mem_map.mp ham with ⟨v, hvm, rfl⟩
    rcases takeChannel_mem _ v hvm with h0 | ⟨r, hr, hvr⟩
    · subst h0
      norm_num
    · rcases List.mem_flatten.mp hr with ⟨blk, hblk, hrblk⟩
      exact norm_bounds v (hrange blk hblk r hrblk v hvr).1
        (hrange blk hblk r hrblk v hvr).2

set_option maxRecDepth 2000 in
/-- Witness for C8 on a concrete one-block capture containing the extreme
int16 samples -32767 and 32767. -/
theorem finalize_samples_in_range_witness :
    ((0 : ℚ) ∈ finalize [[[(-32767 : ℤ)], [32767], [0]]]) ∧
    (-1 ≤ (0 : ℚ) ∧ (0 : ℚ) ≤ 1) :=
  ⟨by with_unfolding_all decide,
   finalize_samples_in_range [[[(-32767 : ℤ)], [32767], [0]]] 0
     (by with_unfolding_all decide) (by with_unfolding_all decide)⟩

/-- C10: the fixed-duration callback only appends the block copy to the
frame buffer, leaving the live signal level and the stop flag unchanged;
the endpoint-detected callback appends the block and updates the live
signal level to the block's RMS normalized by 32768. -/
theorem callback_frame_effects (b : Block) (now : ℝ) (s : SessionState) :
    fixedCallback b s = { s with frames := s.frames ++ [b] } ∧
    (fixedCallback b s).audio_level = s.audio_level ∧
    (fixedCallback b s).stop_event = s.stop_event ∧
    (silenceCallback b now s).audio_level = rmsOf b ∧
    (silenceCallback b now s).frames = s.frames ++ [b] :=
  ⟨rfl, rfl, rfl, rfl, rfl⟩

/-- Starting the enumeration loop at offset `k` shifts every reported
index by `k`. -/
theorem findMatch_shift (hw : List Char) : ∀ (ds : List Device) (k : ℕ),
    findMatch hw k ds = (findMatch hw 0 ds).map (· + k)
  | [], k => by simp [findMatch]
  | d :: ds, k => by
    by_cases hm : matchesHw hw d
    · simp [findMatch, hm]
    · simp only [findMatch, hm, if_false, Bool.false_eq_true]
      rw [findMatch_shift hw ds (k + 1), findMatch_shift hw ds 1]
      cases findMatch hw 0 ds with
      | none => simp
      | some x => simp; omega

/-- Soundness of the enumeration loop: a returned index is in range, its
device passes the name-and-channels test, and no earlier device does. -/
theorem findMatch_zero_spec (hw : List Char) : ∀ (ds : List Device) (i : ℕ),
    findMatch hw 0 ds = some i →
    i < ds.length ∧ matchesHw hw (ds.getD i dummyDev) = true ∧
    ∀ j, j < i → matchesHw hw (ds.getD j dummyDev) = false
  | [], i, h => by simp [findMatch] at h
  | d :: ds, i, h => by
    by_cases hm : matchesHw hw d
    · simp [findMatch, hm] at h
      subst h
      exact ⟨by simp, by simpa using hm,
        fun j hj => absurd hj (Nat.not_lt_zero j)⟩
    · simp only [findMatch, hm, if_false, Bool.false_eq_true] at h
      rw [findMatch_shift hw ds 1] at h
      rcases Option.map_eq_some'.mp h with ⟨i0, hi0, rfl⟩
      have hrec := findMatch_zero_spec hw ds i0 hi0
      refine ⟨by simpa using Nat.succ_lt_succ hrec.1, by simpa using hrec.2.1, ?_⟩
      intro j hj
      cases j with
      | zero => simpa using hm
      | succ j0 =>
        have hj0 : j0 < i0 := by omega
        simpa using hrec.2.2 j0 hj0

/-- C6: with a configured name hint, selection returns the index of the
first enumerated device whose name contains the hint and which has input
channels; with no hint, or when nothing matched, it returns the platform
default input index provided it is present and non-negative. -/
theorem find_mic_device_selection (devices : List Device)
    (defaultDev : Option ℤ) :
    (∀ hw i, findMatch hw 0 devices = some i →
      find_mic_device (some hw) devices defaultDev = Except.ok (i : ℤ) ∧
      i < devices.length ∧ matchesHw hw (devices.getD i dummyDev) = true ∧
      ∀ j, j < i → matchesHw hw (devices.getD j dummyDev) = false) ∧
    (∀ mic_hw d, namedMatch mic_hw devices = none → defaultDev = some d →
      0 ≤ d → find_mic_device mic_hw devices defaultDev = Except.ok d) := by
  constructor
  · intro hw i h
    refine ⟨?_, findMatch_zero_spec hw devices i h⟩
    simp [find_mic_device, namedMatch, h]
  · intro mhw d hnone hd hge
    subst hd
    simp [find_mic_device, hnone, hge]

/-- Witness for C6: the spec's two selection examples — hint
`hw:0,10` picks device 1 out of `[(0, hw:0,0, 2ch), (1, hw:0,10, 1ch)]`,
and with no hint the default input index 2 is returned. -/
theorem find_mic_device_selection_witness :
    find_mic_device (some (("hw:0,10").toList))
      [{ name := ("hw:0,0").toList, max_input_channels := 2 },
       { name := ("hw:0,10").toList, max_input_channels := 1 }] (some 5) =
      Except.ok 1 ∧
    find_mic_device none
      [{ name := ("hw:0,0").toList, max_input_channels := 2 }] (some 2) =
      Except.ok 2 :=
  ⟨((find_mic_device_selection _ _).1 (("hw:0,10").toList) 1
      (by with_unfolding_all decide)).1,
   (find_mic_device_selection _ _).2 none 2 (by with_unfolding_all decide)
     rfl (by with_unfolding_all decide)⟩

/-- Unfolding `List.intercalate` over a two-or-more-element list. -/
theorem intercalate_cons_cons {α : Type} (sep a b : List α)
    (t : List (List α)) :
    List.intercalate sep (a :: b :: t) =
      a ++ sep ++ List.intercalate sep (b :: t) := by
  simp [List.intercalate, List.intersperse]

/-- `List.intercalate` over a singleton. -/
theorem intercalate_single {α : Type} (sep a : List α) :
    List.intercalate sep [a] = a := by
  simp [List.intercalate, List.intersperse]

/-- Every element of the joined list occurs contiguously inside the
intercalation. -/
theorem mem_intercalate_infix {α : Type} (sep : List α) :
    ∀ (ls : List (List α)) (e : List α), e ∈ ls →
      ∃ pre post, List.intercalate sep ls = pre ++ e ++ post
  | [], e, he => by simp at he
  | [a], e, he => by
    simp at he
    subst he
    exact ⟨[], [], by simp [intercalate_single]⟩
  | a :: b :: t, e, he => by
    rcases List.mem_cons.mp he with rfl | he2
    · refine ⟨[], sep ++ List.intercalate sep (b :: t), ?_⟩
      rw [intercalate_cons_cons]
      simp
    · rcases mem_intercalate_infix sep (b :: t) e he2 with ⟨pre, post, hp⟩
      refine ⟨a ++ sep ++ pre, post, ?_⟩
      rw [intercalate_cons_cons, hp]
      simp

/-- Indexing into the enumeration: position `i` of `l.enumFrom k` holds
`(k + i, l.getD i dummyDev)`. -/
theorem getD_mem_enumFrom : ∀ (l : List Device) (k i : ℕ), i < l.length →
    (k + i, l.getD i dummyDev) ∈ l.enumFrom k
  | [], k, i, h => by simp at h
  | d :: ds, k, 0, h => by simp [List.enumFrom]
  | d :: ds, k, i + 1, h => by
    simp only [List.enumFrom, List.mem_cons]
    right
    have hrec := getD_mem_enumFrom ds (k + 1) i (by simpa using h)
    have harith : k + (i + 1) = k + 1 + i := by omega
    simpa [harith] using hrec

/-- Indexing into the enumeration at offset 0. -/
theorem getD_mem_enum (l : List Device) (i : ℕ) (h : i < l.length) :
    (i, l.getD i dummyDev) ∈ l.enum := by
  simpa using getD_mem_enumFrom l 0 i h

/-- C7: selection fails with the diagnostic error exactly when neither
the named match nor a present non-negative default index yields a device,
and the error message then lists every enumerated device with input
channels, rendered as `index: name`. -/
theorem find_mic_device_failure (mic_hw : Option (List Char))
    (devices : List Device) (defaultDev : Option ℤ) :
    (find_mic_device mic_hw devices defaultDev =
        Except.error (errMsg devices) ↔
      namedMatch mic_hw devices = none ∧ invalidDefault defaultDev = true) ∧
    (∀ i, i < devices.length →
      0 < (devices.getD i dummyDev).max_input_channels →
      ∃ pre post, errMsg devices =
        pre ++ (Nat.toDigits 10 i ++ ((": ").toList) ++
          (devices.getD i dummyDev).name) ++ post) := by
  constructor
  · constructor
    · intro h
      cases hn : namedMatch mic_hw devices with
      | some i => simp [find_mic_device, hn] at h
      | none =>
        cases hd : defaultDev with
        | none => exact ⟨rfl, by simp [invalidDefault]⟩
        | some d =>
          simp only [find_mic_device, hn, hd] at h
          by_cases hge : d ≥ 0
          · rw [if_pos hge] at h
            simp at h
          · refine ⟨rfl, ?_⟩
            simp only [invalidDefault, decide_eq_true_eq]
            omega
    · rintro ⟨hn, hd⟩
      cases hdd : defaultDev with
      | none => simp [find_mic_device, hn, hdd]
      | some d =>
        rw [hdd] at hd
        simp only [invalidDefault, decide_eq_true_eq] at hd
        simp only [find_mic_device, hn, hdd]
        rw [if_neg (by omega)]
  · intro i hi hch
    have hmem : (i, devices.getD i dummyDev) ∈ devices.enum :=
      getD_mem_enum devices i hi
    have hfil : (i, devices.getD i dummyDev) ∈
        devices.enum.filter (fun p => decide (p.2.max_input_channels > 0)) :=
      List.mem_filter.mpr ⟨hmem, by simpa using hch⟩
    have hmap :
        (Nat.toDigits 10 i ++ ((": ").toList) ++
          (devices.getD i dummyDev).name) ∈
        (devices.enum.filter
            (fun p => decide (p.2.max_input_channels > 0))).map
          (fun p => Nat.toDigits 10 p.1 ++ ((": ").toList) ++ p.2.name) :=
      List.mem_map_of_mem _ hfil
    rcases mem_intercalate_infix ((", ").toList) _ _ hmap with ⟨pre, post, hp⟩
    refine ⟨("No input device found. Available inputs: ").toList ++ pre, post, ?_⟩
    rw [errMsg, hp]
    simp

/-- Witness for C7: with hint `usb` (matching nothing — Python's `in` is
case-sensitive), no usable default (index -1), selection fails and the
message contains the entry `1: USB Mic` for the only input device. -/
theorem find_mic_device_failure_witness :
    find_mic_device (some (("usb").toList)) demoDevices (some (-1)) =
      Except.error (errMsg demoDevices) ∧
    ∃ pre post, errMsg demoDevices =
      pre ++ (Nat.toDigits 10 1 ++ ((": ").toList) ++ ("USB Mic").toList) ++ post :=
  ⟨(find_mic_device_failure (some (("usb").toList)) demoDevices (some (-1))).1.mpr
     ⟨by with_unfolding_all decide, by with_unfolding_all decide⟩,
   (find_mic_device_failure (some (("usb").toList)) demoDevices (some (-1))).2 1
     (by with_unfolding_all decide) (by with_unfolding_all decide)⟩

end Kiri
